/-
  Verification development for the paroxy-rs compiler front end
  (src/paroxy-rs/src/parser.rs and src/paroxy-rs/src/main.rs).

  The parser is embedded shallowly: the token stream is pre-scanned into a
  list, the mutable Parser struct becomes an explicit state record, and the
  two unbounded loops (the top-level compile loop and the loop-body scan)
  are given an explicit fuel parameter.  A Rust panic (from `.unwrap()` on
  a failed lexeme parse) is modelled by the `PRes.panicked` result, and
  fuel exhaustion by `PRes.diverge`.

  The repository's scanner.rs, token.rs, chunk.rs and opcode.rs are not
  part of the provided sources; they are modelled from the specification
  (each such definition is marked in its doc comment).
-/
import Mathlib

set_option maxHeartbeats 1000000
set_option maxRecDepth 4000

namespace Paroxy

/-- Modelled from the spec: token.rs is absent from src/.  Lexical
categories of tokens, per spec section 4.1: the single-character operators,
integer and string literals, end of input, plus the `Ignore` kind for
characters outside the recognized set and the `Error` kind for malformed
input (for example an unterminated string). -/
inductive TokenKind where
  | Plus | Minus | LeftAngle | RightAngle | Dot | Comma | Hash | At
  | LeftBrace | RightBrace | LeftBracket | RightBracket
  | Dollar | Caret | Star
  | Integer | String
  | Ignore | Error | EOF
deriving DecidableEq, Repr

/-- Modelled from the spec: token.rs is absent from src/.  A classified
lexeme: kind, text slice and 1-based source line (spec section 3). -/
structure Token where
  kind : TokenKind
  lexeme : String
  line : Nat
deriving DecidableEq, Repr

/-- Modelled from the spec: token.rs is absent from src/.  `Token::empty()`,
the placeholder held in `previous`/`current` before the first advance. -/
def Token.empty : Token := ⟨TokenKind.EOF, "", 0⟩

/-- Modelled from the spec: chunk.rs is absent from src/.  The tagged
union of a 32-bit unsigned integer and an immutable string
(spec section 3); the integer is carried as a `Nat` that the parser's
`u32` parses keep below 2^32. -/
inductive Value where
  | Int : Nat → Value
  | String : String → Value
deriving DecidableEq, Repr

/-- Modelled from the spec: chunk.rs is absent from src/.  The bytecode
container: a byte sequence, its constant pool, and the parallel per-byte
source-line table (spec section 3).  Code bytes are carried as `Nat`
(the parser only ever writes values below 256). -/
structure Chunk where
  code : List Nat
  constants : List Value
  lines : List Nat
deriving DecidableEq, Repr

/-- Modelled from the spec: chunk.rs is absent from src/.
`Chunk::write_chunk` appends one code byte together with its source line. -/
def writeChunk (b line : Nat) (c : Chunk) : Chunk :=
  { c with code := c.code ++ [b], lines := c.lines ++ [line] }

/-- Modelled from the spec: chunk.rs is absent from src/.
`Chunk::add_constant` appends to the ordered, append-only pool and returns
the index of the value just added (spec section 3: index-addressed pool). -/
def addConstant (v : Value) (c : Chunk) : Chunk × Nat :=
  ({ c with constants := c.constants ++ [v] }, c.constants.length)

/-- Modelled from the spec: opcode.rs is absent from src/.  The fixed
instruction vocabulary of spec section 4.3; byte values are assigned in
the order the spec lists the opcodes (the claims depend only on the values
being distinct small bytes). -/
inductive OpCode where
  | Constant | DefineTape
  | IncrementSingular | DecrementSingular | Increment | Decrement
  | ShiftLeft | ShiftRight | MoveLeft | MoveRight
  | SetPointer | WriteCell | WriteString
  | Print | PrintRange
  | Input | MultiInput
  | JumpIfZero | Loop | Return
deriving DecidableEq, Repr

/-- Modelled from the spec: opcode.rs is absent from src/.  The byte value
of an opcode (the `as u8` / `Into<u8>` conversion used by `emit_byte`). -/
def OpCode.toByte : OpCode → Nat
  | .Constant => 0
  | .DefineTape => 1
  | .IncrementSingular => 2
  | .DecrementSingular => 3
  | .Increment => 4
  | .Decrement => 5
  | .ShiftLeft => 6
  | .ShiftRight => 7
  | .MoveLeft => 8
  | .MoveRight => 9
  | .SetPointer => 10
  | .WriteCell => 11
  | .WriteString => 12
  | .Print => 13
  | .PrintRange => 14
  | .Input => 15
  | .MultiInput => 16
  | .JumpIfZero => 17
  | .Loop => 18
  | .Return => 19

def opConstant : Nat := OpCode.Constant.toByte
def opDefineTape : Nat := OpCode.DefineTape.toByte
def opIncrementSingular : Nat := OpCode.IncrementSingular.toByte
def opDecrementSingular : Nat := OpCode.DecrementSingular.toByte
def opIncrement : Nat := OpCode.Increment.toByte
def opDecrement : Nat := OpCode.Decrement.toByte
def opShiftLeft : Nat := OpCode.ShiftLeft.toByte
def opShiftRight : Nat := OpCode.ShiftRight.toByte
def opMoveLeft : Nat := OpCode.MoveLeft.toByte
def opMoveRight : Nat := OpCode.MoveRight.toByte
def opSetPointer : Nat := OpCode.SetPointer.toByte
def opWriteCell : Nat := OpCode.WriteCell.toByte
def opWriteString : Nat := OpCode.WriteString.toByte
def opPrint : Nat := OpCode.Print.toByte
def opPrintRange : Nat := OpCode.PrintRange.toByte
def opInput : Nat := OpCode.Input.toByte
def opMultiInput : Nat := OpCode.MultiInput.toByte
def opJumpIfZero : Nat := OpCode.JumpIfZero.toByte
def opLoop : Nat := OpCode.Loop.toByte
def opReturn : Nat := OpCode.Return.toByte

/-- The double-quote character. -/
def quoteChar : Char := Char.ofNat 34

/-- Modelled from the spec: scanner.rs is absent from src/.  Kind of a
single-character operator token, per spec section 4.1. -/
def opKindOf (c : Char) : Option TokenKind :=
  if c = '+' then some .Plus
  else if c = '-' then some .Minus
  else if c = '<' then some .LeftAngle
  else if c = '>' then some .RightAngle
  else if c = '.' then some .Dot
  else if c = ',' then some .Comma
  else if c = Char.ofNat 35 then some .Hash
  else if c = '@' then some .At
  else if c = Char.ofNat 123 then some .LeftBrace
  else if c = Char.ofNat 125 then some .RightBrace
  else if c = '[' then some .LeftBracket
  else if c = ']' then some .RightBracket
  else if c = '$' then some .Dollar
  else if c = '^' then some .Caret
  else if c = '*' then some .Star
  else none

/-- Scanning mode: ordinary position, inside a string literal (with the
accumulated content), or inside an integer literal. -/
inductive ScanMode where
  | norm
  | instr (acc : String)
  | innum (acc : String)

/-- Modelled from the spec: scanner.rs is absent from src/.  One-pass
tokenizer, per spec section 4.1: single-character operators, double-quoted
string literals taken verbatim (an unterminated string yields an
Error-kind token), maximal decimal integer literals; every other
character (whitespace included) yields an Ignore-kind token that the
compiler's advance step filters out.  Newlines advance the 1-based line
counter.  String token lexemes keep their surrounding quotes, as the
parser slices them off again. -/
def scanAux : List Char → Nat → ScanMode → List Token
  | [], _, .norm => []
  | [], line, .instr _ => [⟨.Error, "Unterminated string.", line⟩]
  | [], line, .innum acc => [⟨.Integer, acc, line⟩]
  | c :: cs, line, .norm =>
    if c = quoteChar then scanAux cs line (.instr "")
    else if c.isDigit then scanAux cs line (.innum (String.singleton c))
    else if c = '\n' then ⟨.Ignore, String.singleton c, line⟩ :: scanAux cs (line + 1) .norm
    else
      match opKindOf c with
      | some k => ⟨k, String.singleton c, line⟩ :: scanAux cs line .norm
      | none => ⟨.Ignore, String.singleton c, line⟩ :: scanAux cs line .norm
  | c :: cs, line, .instr acc =>
    if c = quoteChar then
      ⟨.String, String.singleton quoteChar ++ acc ++ String.singleton quoteChar, line⟩
        :: scanAux cs line .norm
    else if c = '\n' then scanAux cs (line + 1) (.instr (acc.push c))
    else scanAux cs line (.instr (acc.push c))
  | c :: cs, line, .innum acc =>
    if c.isDigit then scanAux cs line (.innum (acc.push c))
    else
      ⟨.Integer, acc, line⟩ ::
        (if c = quoteChar then scanAux cs line (.instr "")
         else if c = '\n' then ⟨.Ignore, String.singleton c, line⟩ :: scanAux cs (line + 1) .norm
         else
           match opKindOf c with
           | some k => ⟨k, String.singleton c, line⟩ :: scanAux cs line .norm
           | none => ⟨.Ignore, String.singleton c, line⟩ :: scanAux cs line .norm)

/-- Modelled from the spec: scanner.rs is absent from src/.  The finite
token sequence a Scanner produces for a source text. -/
def scanTokens (src : String) : List Token :=
  scanAux src.data 1 .norm

/-- Modelled from the spec: scanner.rs is absent from src/.  The line the
scanner reports at end of input (its EOF tokens carry this line). -/
def scanEofLine (src : String) : Nat :=
  1 + src.data.countP (fun c => c = '\n')

/-- Modelled from Rust's `str::parse` for an unsigned integer type with
exclusive upper bound `bound`: a non-empty all-digit numeral parses to its
value when the value is representable, anything else is a parse error
(lexemes produced by the scanner never carry a sign). -/
def parseBounded (bound : Nat) (str : String) : Option Nat :=
  let cs := str.data
  if cs = [] then none
  else if cs.all Char.isDigit then
    let n := cs.foldl (fun a c => 10 * a + (c.toNat - 48)) 0
    if n < bound then some n else none
  else none

/-- `lexeme.parse::<u32>()` of parser.rs. -/
def parseU32 (str : String) : Option Nat := parseBounded (2 ^ 32) str

/-- `lexeme.parse::<usize>()` of parser.rs (usize is 64-bit). -/
def parseUsize (str : String) : Option Nat := parseBounded (2 ^ 64) str

/-- Result of running a piece of the compiler: a normal result, a Rust
panic (an `.unwrap()` of a failed parse), or non-termination within the
given fuel. -/
inductive PRes (α : Type) where
  | ok : α → PRes α
  | panicked : PRes α
  | diverge : PRes α
deriving DecidableEq, Repr

def PRes.bind : PRes α → (α → PRes β) → PRes β
  | .ok a, f => f a
  | .panicked, _ => .panicked
  | .diverge, _ => .diverge

instance : Monad PRes where
  pure := PRes.ok
  bind := PRes.bind

/-- The `Parser` struct of parser.rs, with the lazily consumed Scanner
replaced by the list of tokens it has yet to produce, and the diagnostics
printed by `error_at` accumulated in `diags` (line, message). -/
structure PState where
  tokens : List Token
  previous : Token
  current : Token
  hadError : Bool
  panicMode : Bool
  chunk : Chunk
  diags : List (Nat × String)
  eofLine : Nat
deriving DecidableEq, Repr

/-- `Parser::new` on a fresh scanner and an empty chunk (main.rs `parse`). -/
def initState (src : String) : PState :=
  { tokens := scanTokens src
    previous := Token.empty
    current := Token.empty
    hadError := false
    panicMode := false
    chunk := ⟨[], [], []⟩
    diags := []
    eofLine := scanEofLine src }

/-- `Parser::error_at`: under panic mode the diagnostic is suppressed and
nothing changes; otherwise panic mode latches, the diagnostic is printed,
and `had_error` is set. -/
def errorAt (tok : Token) (message : String) (s : PState) : PState :=
  if s.panicMode then s
  else
    { s with
      panicMode := true
      hadError := true
      diags := s.diags ++ [(tok.line, message)] }

/-- `Parser::error_at_current`. -/
def errorAtCurrent (message : String) (s : PState) : PState :=
  errorAt s.current message s

/-- `Parser::error` (reports at the previous token). -/
def errorPrev (message : String) (s : PState) : PState :=
  errorAt s.previous message s

/-- The scan-and-filter loop inside `Parser::advance`: pull tokens off the
scanner, skipping Ignore kinds silently and reporting Error kinds as
`unexpected token.` diagnostics, until a real token (or EOF, when the
scanner is exhausted) lands in `current`. -/
def advLoop : List Token → PState → PState
  | [], s => { s with tokens := [], current := ⟨.EOF, "", s.eofLine⟩ }
  | t :: ts, s =>
    let s2 := { s with tokens := ts, current := t }
    match t.kind with
    | .Ignore => advLoop ts s2
    | .Error => advLoop ts (errorAtCurrent "unexpected token." s2)
    | _ => s2

/-- `Parser::advance`: the old `current` becomes `previous`, then the
filter loop installs the next significant token as `current`. -/
def advance (s : PState) : PState :=
  advLoop s.tokens { s with previous := s.current }

/-- `Parser::check`. -/
def check (k : TokenKind) (s : PState) : Bool :=
  s.current.kind = k

/-- `Parser::matches`: consume the current token when it has the expected
kind, reporting whether it did. -/
def matchesTk (k : TokenKind) (s : PState) : Bool × PState :=
  if check k s then (true, advance s) else (false, s)

/-- `Parser::consume`: advance past an expected token kind or report the
given message at the current token. -/
def consume (k : TokenKind) (message : String) (s : PState) : PState :=
  if s.current.kind = k then advance s else errorAtCurrent message s

/-- `Parser::emit_byte`: write one code byte tagged with the previous
token's line. -/
def emitByte (b : Nat) (s : PState) : PState :=
  { s with chunk := writeChunk b s.previous.line s.chunk }

/-- `Parser::emit_two_bytes`. -/
def emitTwoBytes (b1 b2 : Nat) (s : PState) : PState :=
  emitByte b2 (emitByte b1 s)

/-- `Parser::make_constant`: append to the pool; an index above 255 is
reported as `Too many constants in one chunk.`; the returned operand byte
is the index truncated to `u8`. -/
def makeConstant (v : Value) (s : PState) : Nat × PState :=
  let r := addConstant v s.chunk
  let idx := r.2
  let s1 := { s with chunk := r.1 }
  let s2 := if idx > 255 then errorPrev "Too many constants in one chunk." s1 else s1
  (idx % 256, s2)

/-- `Parser::emit_constant`: a `Constant` opcode followed by the pool
index operand byte. -/
def emitConstant (v : Value) (s : PState) : PState :=
  let (operand, s1) := makeConstant v s
  emitTwoBytes opConstant operand s1

/-- `Parser::emit_jump`: the opcode followed by the two-byte 0xFFFF
placeholder; returns the offset of the placeholder's first byte. -/
def emitJump (instr : Nat) (s : PState) : Nat × PState :=
  let s1 := emitByte 255 (emitByte instr s)
  let s2 := emitByte 255 s1
  (s2.chunk.code.length - 2, s2)

/-- `Parser::patch_jump`: compute the forward distance from just past the
operand bytes to the current end of code, report `Too much code to jump
over.` past 16 bits, and write the big-endian 16-bit distance over the
placeholder in place. -/
def patchJump (offset : Nat) (s : PState) : PState :=
  let jump := s.chunk.code.length - offset - 2
  let s1 := if jump > 65535 then errorPrev "Too much code to jump over." s else s
  let j := jump % 65536
  { s1 with
    chunk :=
      { s1.chunk with
        code := (s1.chunk.code.set offset (j / 256)).set (offset + 1) (j % 256) } }

/-- `Parser::emit_loop`: a `Loop` opcode followed by the big-endian 16-bit
backward distance from just past its operand bytes to `loop_start`;
distances past 16 bits are reported as `Loop body too large.`. -/
def emitLoop (loopStart : Nat) (s : PState) : PState :=
  let s1 := emitByte opLoop s
  let offset := s1.chunk.code.length - loopStart + 2
  let s2 := if offset > 65535 then errorPrev "Loop body too large." s1 else s1
  emitByte (offset % 65536 % 256) (emitByte (offset % 65536 / 256) s2)

/-- `Parser::sized_constant` (the `<`, `>`, `.` operators): with a counted
form, push the `u32` count through the constant pool and emit the `many`
opcode; otherwise emit the single-step opcode.  The count's
`parse::<u32>().unwrap()` panics when the numeral exceeds 32 bits. -/
def sizedConstant (one many : Nat) (s : PState) : PRes PState :=
  let r := matchesTk .Integer (advance s)
  if r.1 then
    match parseU32 r.2.previous.lexeme with
    | some size => .ok (emitByte many (emitConstant (Value.Int size) r.2))
    | none => .panicked
  else .ok (emitByte one r.2)

/-- `Parser::sized_code` (the `+`, `-` operators): a counted form above
255 is reported as a compile error and emits nothing; otherwise the
`many` opcode is followed by the count as one raw inline byte.  The
`parse::<usize>().unwrap()` panics when the numeral exceeds 64 bits. -/
def sizedCode (one many : Nat) (s : PState) : PRes PState :=
  let r := matchesTk .Integer (advance s)
  if r.1 then
    match parseUsize r.2.previous.lexeme with
    | some size =>
      if size > 255 then .ok (errorAtCurrent "Expect integer between 0-255." r.2)
      else .ok (emitByte size (emitByte many r.2))
    | none => .panicked
  else .ok (emitByte one r.2)

/-- `Parser::input_expression` (the `,` operator): consume a `*` if
present, emitting `Input` only when it is absent; then unconditionally
emit `MultiInput` followed by the flag byte whose bit 0 records a
following `^`. -/
def inputExpression (s : PState) : PState :=
  let r := matchesTk .Star (advance s)
  let s3 := if r.1 then r.2 else emitByte opInput r.2
  let rc := matchesTk .Caret (emitByte opMultiInput s3)
  emitByte (if rc.1 then 1 else 0) rc.2

/-- `Parser::replace_current` (the literal write operator followed by an
integer): values above 255 are a compile error; otherwise `WriteCell`
followed by the raw byte.  When the expected integer is missing, the
error is reported and then the previous lexeme's
`parse::<usize>().unwrap()` panics. -/
def replaceCurrent (s : PState) : PRes PState :=
  let s1 := advance s
  let s2 := consume .Integer "Expect integer after '#'." s1
  match parseUsize s2.previous.lexeme with
  | some value =>
    if value > 255 then
      .ok (errorAt s2.previous "Expect integer between 0 and 255 (included)." s2)
    else .ok (emitByte value (emitByte opWriteCell s2))
  | none => .panicked

/-- `Parser::set_pointer_expression` (the `@` operator): push the `u32`
target through the constant pool and emit `SetPointer`.  A missing or
out-of-32-bit-range integer panics in `parse::<u32>().unwrap()`. -/
def setPointerExpression (s : PState) : PRes PState :=
  let s1 := advance s
  let s2 := consume .Integer "Expect integer after '@'." s1
  match parseU32 s2.previous.lexeme with
  | some value => .ok (emitByte opSetPointer (emitConstant (Value.Int value) s2))
  | none => .panicked

/-- `Parser::define_tape` (the tape-definition form): push the `u32` size
through the constant pool, emit `DefineTape`, and require the closing
brace. -/
def defineTape (s : PState) : PRes PState :=
  let s1 := advance s
  let s2 := consume .Integer "Expect a number after '\x7b'." s1
  match parseU32 s2.previous.lexeme with
  | some size =>
    let s3 := emitByte opDefineTape (emitConstant (Value.Int size) s2)
    .ok (consume .RightBrace "Expect '\x7d' after define tape." s3)
  | none => .panicked

/-- `Parser::string`: the literal's content is the lexeme with its quotes
sliced off, taken verbatim; emit `Constant(string)` then `WriteString`;
a following `$` adds `Constant(byte length)` + `PrintRange`, and a
following `^` adds `Constant(byte length)` + `MoveRight`, in that fixed
order.  The length is the Rust byte length, truncated by `as u32`. -/
def stringExpr (s : PState) : PState :=
  let value := (s.current.lexeme.drop 1).dropRight 1
  let length := value.utf8ByteSize % 2 ^ 32
  let rd := matchesTk .Dollar (advance (emitByte opWriteString (emitConstant (Value.String value) s)))
  let s4 := if rd.1 then emitByte opPrintRange (emitConstant (Value.Int length) rd.2) else rd.2
  let rc := matchesTk .Caret s4
  if rc.1 then emitByte opMoveRight (emitConstant (Value.Int length) rc.2) else rc.2

/-- The shape of `Parser::loop_expression`, abstracted over the
body-scanning loop: record the loop head, emit the `JumpIfZero`
placeholder, compile the body to the closing bracket, emit the backward
`Loop` jump, and backpatch the placeholder. -/
def loopExpressionF (body : PState → PRes PState) (s : PState) : PRes PState :=
  let loopStart := s.chunk.code.length
  let rj := emitJump opJumpIfZero s
  do
    let s3 ← body (advance rj.2)
    .ok (patchJump rj.1 (emitLoop loopStart s3))

/-- The shape of `Parser::expression`, abstracted over the loop-body
scanner used by the `[` arm: one-token dispatch over the operator
grammar; unrecognized kinds fall through to the empty default arm. -/
def expressionF (body : PState → PRes PState) (s : PState) : PRes PState :=
  match s.current.kind with
  | .Plus => sizedCode opIncrementSingular opIncrement s
  | .Minus => sizedCode opDecrementSingular opDecrement s
  | .LeftAngle => sizedConstant opShiftLeft opMoveLeft s
  | .RightAngle => sizedConstant opShiftRight opMoveRight s
  | .Dot => sizedConstant opPrint opPrintRange s
  | .Comma => .ok (inputExpression s)
  | .Hash => replaceCurrent s
  | .At => setPointerExpression s
  | .LeftBrace => defineTape s
  | .LeftBracket => loopExpressionF body s
  | .String => .ok (stringExpr s)
  | _ => .ok s

/-- The mutually recursive pair `Parser::expression` (first component)
and the body-scanning loop of `Parser::loop_expression` (second
component), tied by explicit fuel: each recursive round consumes one
unit, and exhausted fuel reports divergence.  On end of input inside a
loop body the Rust loop spins forever, so every finite fuel is
exhausted there. -/
def compilerStep : Nat → (PState → PRes PState) × (PState → PRes PState)
  | 0 => (fun _ => .diverge, fun _ => .diverge)
  | fuel + 1 =>
    let exprF := (compilerStep fuel).1
    let bodyF := (compilerStep fuel).2
    ( fun s => expressionF bodyF s,
      fun s =>
        let r := matchesTk .RightBracket s
        if r.1 then .ok r.2
        else do
          let s2 ← exprF r.2
          bodyF s2 )

/-- `Parser::expression` with fuel. -/
def expression (fuel : Nat) : PState → PRes PState :=
  (compilerStep fuel).1

/-- The `while !self.matches(RightBracket)` loop of
`Parser::loop_expression`, with fuel. -/
def loopBody (fuel : Nat) : PState → PRes PState :=
  (compilerStep fuel).2

/-- `Parser::loop_expression` with fuel for its body scan. -/
def loopExpression (fuel : Nat) : PState → PRes PState :=
  loopExpressionF (loopBody fuel)

/-- `Parser::end`: emit the terminating `Return` (the debug disassembly
is output-only and not modelled). -/
def endCompile (s : PState) : PState :=
  emitByte opReturn s

/-- The `while !self.matches(EOF)` loop of `Parser::compile`, followed by
`Parser::end`. -/
def mainLoop : Nat → PState → PRes PState
  | 0, _ => .diverge
  | fuel + 1, s =>
    let r := matchesTk .EOF s
    if r.1 then .ok (endCompile r.2)
    else do
      let s2 ← expression fuel r.2
      mainLoop fuel s2

/-- `Parser::compile` on a fresh parser for the given source: prime the
lookahead, inject the default `Constant(30000)` + `DefineTape` preamble
unless the first token is a `[`, then compile expressions to end of
input.  The final state carries the chunk and the `had_error` flag that
decides success. -/
def compileFuel (fuel : Nat) (src : String) : PRes PState :=
  let s1 := advance (initState src)
  let s2 :=
    if s1.current.kind ≠ TokenKind.LeftBracket then
      emitByte opDefineTape (emitConstant (Value.Int 30000) s1)
    else s1
  mainLoop fuel s2

/-- main.rs `parse`: run the compiler; on success hand the chunk to the
caller, on reported failure yield no chunk. -/
def parseProgram (fuel : Nat) (src : String) : PRes (Option Chunk) :=
  match compileFuel fuel src with
  | .ok s => .ok (if s.hadError then none else some s.chunk)
  | .panicked => .panicked
  | .diverge => .diverge

/-- The code bytes of the chunk a compile run builds (whether or not the
run reported errors); `none` when the run panics or exhausts fuel. -/
def compiledCode (fuel : Nat) (src : String) : Option (List Nat) :=
  match compileFuel fuel src with
  | .ok s => some s.chunk.code
  | _ => none

/-- The constant pool a compile run builds. -/
def compiledConstants (fuel : Nat) (src : String) : Option (List Value) :=
  match compileFuel fuel src with
  | .ok s => some s.chunk.constants
  | _ => none

/-- Whether a completed compile run succeeded (`!had_error`). -/
def compileSucceeds (fuel : Nat) (src : String) : Option Bool :=
  match compileFuel fuel src with
  | .ok s => some (!s.hadError)
  | _ => none

/-- The diagnostics a completed compile run printed. -/
def compileDiags (fuel : Nat) (src : String) : Option (List (Nat × String)) :=
  match compileFuel fuel src with
  | .ok s => some s.diags
  | _ => none

/-- The kind of the first significant token of a source text: what
`Parser::compile` sees in `current` after its initial advance. -/
def firstTokenKind (src : String) : TokenKind :=
  (advance (initState src)).current.kind

/-- Operand bytes that follow an opcode byte inline in the code stream:
one for `Constant`, `Increment`, `Decrement`, `WriteCell` and
`MultiInput`, two for the jump instructions, none otherwise. -/
def operandCount (b : Nat) : Nat :=
  if b = opConstant ∨ b = opIncrement ∨ b = opDecrement ∨ b = opWriteCell ∨ b = opMultiInput
  then 1
  else if b = opJumpIfZero ∨ b = opLoop then 2
  else 0

/-- The operand bytes of the `Constant` instructions of a code stream,
reading instructions left to right and skipping each instruction's
inline operands. -/
def constOperands : List Nat → List Nat
  | [] => []
  | b :: rest =>
    if b = opConstant then
      match rest with
      | [] => []
      | i :: r => i :: constOperands r
    else constOperands (rest.drop (operandCount b))
termination_by l => l.length
decreasing_by
  · simp; omega
  · simp only [List.length_drop, List.length_cons]; omega

/-- A byte list that is a concatenation of complete instructions: each
opcode byte is followed by exactly its operand bytes. -/
inductive CodeSeq : List Nat → Prop where
  | nil : CodeSeq []
  | cons (b : Nat) (ops rest : List Nat) (hlen : ops.length = operandCount b)
      (hrest : CodeSeq rest) : CodeSeq (b :: (ops ++ rest))

/-- The compiler-run invariant behind the panic-mode latch and the
constant-pool bound: the latch agrees with `had_error`, exactly one
diagnostic has been printed when an error was recorded and none
otherwise, and an error-free run has at most 256 pool entries. -/
def GInv (s : PState) : Prop :=
  s.panicMode = s.hadError ∧
  s.diags.length = (if s.hadError = true then 1 else 0) ∧
  (s.hadError = false → s.chunk.constants.length ≤ 256)

/-- Relation between a state and a later state of the same compile run:
the code grows by a complete instruction sequence whose `Constant`
operands index into the (only ever appended-to) pool, and the run
invariant and the error flag are carried forward. -/
structure Post (s s' : PState) : Prop where
  code : ∃ d, s'.chunk.code = s.chunk.code ++ d ∧ CodeSeq d ∧
    ∀ i ∈ constOperands d, i < s'.chunk.constants.length
  consts : ∃ e, s'.chunk.constants = s.chunk.constants ++ e
  ginv : GInv s → GInv s'
  errMono : s.hadError = true → s'.hadError = true

/-- The final-state discipline of the panic-mode latch over one compile
run: when the run completes, at most one diagnostic was printed, a
diagnostic was printed exactly when `had_error` is set, and a printed
diagnostic means the caller receives no chunk. -/
def panicLatchSpec (fuel : Nat) (src : String) : Prop :=
  match compileFuel fuel src with
  | .ok s =>
    s.diags.length ≤ 1 ∧ (s.hadError = true ↔ s.diags.length = 1) ∧
    (s.diags.length = 1 → parseProgram fuel src = .ok none)
  | _ => True

/-- The constant-pool discipline over one compile run: an error-free
completed run has at most 256 pool entries, and (errors or not) every
`Constant` operand byte of the built code indexes into the pool. -/
def poolDiscipline (fuel : Nat) (src : String) : Prop :=
  match compileFuel fuel src with
  | .ok s =>
    (s.hadError = false → s.chunk.constants.length ≤ 256) ∧
    (∀ i ∈ constOperands s.chunk.code, i < s.chunk.constants.length)
  | _ => True

/-- Which preamble a completed compile run put in front of the code:
programs whose first token is a loop bracket start with `JumpIfZero`
(no default-tape preamble), every other program starts with
`Constant(30000)` + `DefineTape`. -/
def preambleSpec (fuel : Nat) (src : String) : Prop :=
  match compileFuel fuel src with
  | .ok s =>
    if firstTokenKind src = TokenKind.LeftBracket then
      s.chunk.code.take 1 = [opJumpIfZero]
    else
      s.chunk.code.take 3 = [opConstant, 0, opDefineTape] ∧
      s.chunk.constants.take 1 = [Value.Int 30000]
  | _ => True

/-- A parser state whose chunk already holds 257 pool entries. -/
def bigPoolState : PState :=
  { initState "" with chunk := ⟨[], List.replicate 257 (Value.Int 0), []⟩ }

section Lemmas

@[simp] theorem PRes.bind_ok (a : α) (f : α → PRes β) : PRes.bind (.ok a) f = f a := rfl

@[simp] theorem PRes.bind_panicked (f : α → PRes β) :
    PRes.bind (.panicked : PRes α) f = .panicked := rfl

@[simp] theorem PRes.bind_diverge (f : α → PRes β) :
    PRes.bind (.diverge : PRes α) f = .diverge := rfl

@[simp] theorem PRes.monad_bind (x : PRes α) (f : α → PRes β) :
    x >>= f = PRes.bind x f := rfl

@[simp] theorem PRes.pure_eq (a : α) : (pure a : PRes α) = .ok a := rfl

theorem PRes.bind_eq_ok {x : PRes α} {f : α → PRes β} {b : β}
    (h : PRes.bind x f = .ok b) : ∃ a, x = .ok a ∧ f a = .ok b := by
  cases x with
  | ok a => exact ⟨a, rfl, h⟩
  | panicked => simp [PRes.bind] at h
  | diverge => simp [PRes.bind] at h

theorem set_append_right (l1 l2 : List α) (k : Nat) (x : α) :
    (l1 ++ l2).set (l1.length + k) x = l1 ++ l2.set k x := by
  induction l1 with
  | nil => simp
  | cons a l ih =>
    have h : l.length + 1 + k = (l.length + k) + 1 := by omega
    simp only [List.cons_append, List.length_cons, h, List.set]
    rw [ih]

@[simp] theorem errorAt_tokens (t : Token) (m : String) (s : PState) :
    (errorAt t m s).tokens = s.tokens := by
  unfold errorAt; split <;> rfl

@[simp] theorem errorAt_current (t : Token) (m : String) (s : PState) :
    (errorAt t m s).current = s.current := by
  unfold errorAt; split <;> rfl

@[simp] theorem errorAt_previous (t : Token) (m : String) (s : PState) :
    (errorAt t m s).previous = s.previous := by
  unfold errorAt; split <;> rfl

@[simp] theorem errorAt_chunk (t : Token) (m : String) (s : PState) :
    (errorAt t m s).chunk = s.chunk := by
  unfold errorAt; split <;> rfl

@[simp] theorem errorAt_eofLine (t : Token) (m : String) (s : PState) :
    (errorAt t m s).eofLine = s.eofLine := by
  unfold errorAt; split <;> rfl

@[simp] theorem errorAt_panicMode (t : Token) (m : String) (s : PState) :
    (errorAt t m s).panicMode = true := by
  unfold errorAt; split
  · assumption
  · rfl

theorem errorAt_hadError (t : Token) (m : String) (s : PState) :
    (errorAt t m s).hadError = (!s.panicMode || s.hadError) := by
  unfold errorAt; split
  · next h => simp [h]
  · next h => simp [Bool.not_eq_true] at h; simp [h]

theorem errorAt_diags (t : Token) (m : String) (s : PState) :
    (errorAt t m s).diags =
      if s.panicMode then s.diags else s.diags ++ [(t.line, m)] := by
  unfold errorAt; split <;> simp_all

@[simp] theorem advLoop_chunk (ts : List Token) (s : PState) :
    (advLoop ts s).chunk = s.chunk := by
  induction ts generalizing s with
  | nil => rfl
  | cons t ts ih =>
    unfold advLoop
    cases t.kind <;> simp [ih, errorAtCurrent]

@[simp] theorem advLoop_previous (ts : List Token) (s : PState) :
    (advLoop ts s).previous = s.previous := by
  induction ts generalizing s with
  | nil => rfl
  | cons t ts ih =>
    unfold advLoop
    cases t.kind <;> simp [ih, errorAtCurrent]

@[simp] theorem advLoop_eofLine (ts : List Token) (s : PState) :
    (advLoop ts s).eofLine = s.eofLine := by
  induction ts generalizing s with
  | nil => rfl
  | cons t ts ih =>
    unfold advLoop
    cases t.kind <;> simp [ih, errorAtCurrent]

@[simp] theorem advance_chunk (s : PState) : (advance s).chunk = s.chunk := by
  simp [advance]

@[simp] theorem advance_previous (s : PState) : (advance s).previous = s.current := by
  simp [advance]

@[simp] theorem advance_eofLine (s : PState) : (advance s).eofLine = s.eofLine := by
  simp [advance]

@[simp] theorem matchesTk_snd_chunk (k : TokenKind) (s : PState) :
    ((matchesTk k s).2).chunk = s.chunk := by
  unfold matchesTk; split <;> simp

@[simp] theorem consume_chunk (k : TokenKind) (m : String) (s : PState) :
    (consume k m s).chunk = s.chunk := by
  unfold consume; split <;> simp [errorAtCurrent]

@[simp] theorem emitByte_code (b : Nat) (s : PState) :
    (emitByte b s).chunk.code = s.chunk.code ++ [b] := rfl

@[simp] theorem emitByte_constants (b : Nat) (s : PState) :
    (emitByte b s).chunk.constants = s.chunk.constants := rfl

@[simp] theorem emitByte_tokens (b : Nat) (s : PState) : (emitByte b s).tokens = s.tokens := rfl

@[simp] theorem emitByte_current (b : Nat) (s : PState) : (emitByte b s).current = s.current := rfl

@[simp] theorem emitByte_previous (b : Nat) (s : PState) :
    (emitByte b s).previous = s.previous := rfl

@[simp] theorem emitByte_hadError (b : Nat) (s : PState) :
    (emitByte b s).hadError = s.hadError := rfl

@[simp] theorem emitByte_panicMode (b : Nat) (s : PState) :
    (emitByte b s).panicMode = s.panicMode := rfl

@[simp] theorem emitByte_diags (b : Nat) (s : PState) : (emitByte b s).diags = s.diags := rfl

@[simp] theorem emitByte_eofLine (b : Nat) (s : PState) : (emitByte b s).eofLine = s.eofLine := rfl

@[simp] theorem makeConstant_fst (v : Value) (s : PState) :
    (makeConstant v s).1 = s.chunk.constants.length % 256 := by
  simp only [makeConstant, addConstant]

@[simp] theorem makeConstant_snd_constants (v : Value) (s : PState) :
    ((makeConstant v s).2).chunk.constants = s.chunk.constants ++ [v] := by
  simp only [makeConstant, addConstant]
  split <;> simp [errorPrev]

@[simp] theorem makeConstant_snd_code (v : Value) (s : PState) :
    ((makeConstant v s).2).chunk.code = s.chunk.code := by
  simp only [makeConstant, addConstant]
  split <;> simp [errorPrev]

@[simp] theorem makeConstant_snd_current (v : Value) (s : PState) :
    ((makeConstant v s).2).current = s.current := by
  simp only [makeConstant, addConstant]
  split <;> simp [errorPrev]

@[simp] theorem makeConstant_snd_previous (v : Value) (s : PState) :
    ((makeConstant v s).2).previous = s.previous := by
  simp only [makeConstant, addConstant]
  split <;> simp [errorPrev]

@[simp] theorem makeConstant_snd_tokens (v : Value) (s : PState) :
    ((makeConstant v s).2).tokens = s.tokens := by
  simp only [makeConstant, addConstant]
  split <;> simp [errorPrev]

theorem emitConstant_code (v : Value) (s : PState) :
    (emitConstant v s).chunk.code =
      s.chunk.code ++ [opConstant, s.chunk.constants.length % 256] := by
  simp [emitConstant, emitTwoBytes]

theorem emitConstant_constants (v : Value) (s : PState) :
    (emitConstant v s).chunk.constants = s.chunk.constants ++ [v] := by
  simp [emitConstant, emitTwoBytes]

@[simp] theorem emitConstant_current (v : Value) (s : PState) :
    (emitConstant v s).current = s.current := by
  simp [emitConstant, emitTwoBytes]

@[simp] theorem emitConstant_previous (v : Value) (s : PState) :
    (emitConstant v s).previous = s.previous := by
  simp [emitConstant, emitTwoBytes]

@[simp] theorem emitConstant_tokens (v : Value) (s : PState) :
    (emitConstant v s).tokens = s.tokens := by
  simp [emitConstant, emitTwoBytes]

theorem emitJump_snd_code (i : Nat) (s : PState) :
    ((emitJump i s).2).chunk.code = s.chunk.code ++ [i, 255, 255] := by
  simp [emitJump]

theorem emitJump_fst (i : Nat) (s : PState) :
    (emitJump i s).1 = s.chunk.code.length + 1 := by
  simp [emitJump]

theorem matchesTk_fst (k : TokenKind) (s : PState) : (matchesTk k s).1 = check k s := by
  unfold matchesTk; split <;> simp_all

theorem matchesTk_snd (k : TokenKind) (s : PState) :
    (matchesTk k s).2 = if check k s then advance s else s := by
  unfold matchesTk; split <;> simp_all

theorem operandCount_le_two (b : Nat) : operandCount b ≤ 2 := by
  unfold operandCount; split
  · omega
  · split <;> omega

theorem codeSeq_single {b : Nat} (h : operandCount b = 0) : CodeSeq [b] := by
  have := CodeSeq.cons b [] [] (by simp [h]) CodeSeq.nil
  simpa using this

theorem codeSeq_pair {b1 : Nat} (h : operandCount b1 = 1) (b2 : Nat) : CodeSeq [b1, b2] := by
  have := CodeSeq.cons b1 [b2] [] (by simp [h]) CodeSeq.nil
  simpa using this

theorem codeSeq_triple {b : Nat} (h : operandCount b = 2) (x y : Nat) : CodeSeq [b, x, y] := by
  have := CodeSeq.cons b [x, y] [] (by simp [h]) CodeSeq.nil
  simpa using this

theorem CodeSeq.append {c1 c2 : List Nat} (h1 : CodeSeq c1) (h2 : CodeSeq c2) :
    CodeSeq (c1 ++ c2) := by
  induction h1 with
  | nil => simpa
  | cons b ops rest hlen hrest ih =>
    have := CodeSeq.cons b ops (rest ++ c2) hlen ih
    simpa [List.append_assoc] using this

theorem opConstant_operands : operandCount opConstant = 1 := by decide

theorem ne_opConstant_of_count_zero {b : Nat} (h : operandCount b = 0) : b ≠ opConstant := by
  intro e; subst e; rw [opConstant_operands] at h; omega

theorem ne_opConstant_of_count_two {b : Nat} (h : operandCount b = 2) : b ≠ opConstant := by
  intro e; subst e; rw [opConstant_operands] at h; omega

@[simp] theorem constOperands_nil : constOperands [] = [] := by
  rw [constOperands]

theorem constOperands_cons_const (i : Nat) (r : List Nat) :
    constOperands (opConstant :: i :: r) = i :: constOperands r := by
  rw [constOperands]
  simp

theorem constOperands_cons {b : Nat} (hb : b ≠ opConstant) (rest : List Nat) :
    constOperands (b :: rest) = constOperands (rest.drop (operandCount b)) := by
  rw [constOperands.eq_def]
  simp only [hb, if_false]

theorem constOperands_append {c1 : List Nat} (h : CodeSeq c1) (c2 : List Nat) :
    constOperands (c1 ++ c2) = constOperands c1 ++ constOperands c2 := by
  induction h with
  | nil => simp
  | cons b ops rest hlen hrest ih =>
    by_cases hb : b = opConstant
    · subst hb
      rw [opConstant_operands] at hlen
      match ops, hlen with
      | [i], _ =>
        simp [constOperands_cons_const, ih]
    · rw [List.cons_append, constOperands_cons hb, constOperands_cons hb, ← hlen,
        List.append_assoc, List.drop_left, List.drop_left, ih]

theorem constOperands_single {b : Nat} (h : operandCount b = 0) :
    constOperands [b] = [] := by
  rw [show ([b] : List Nat) = b :: [] from rfl, constOperands_cons (ne_opConstant_of_count_zero h)]
  simp

theorem constOperands_pair {b1 : Nat} (h : operandCount b1 = 1) (hb : b1 ≠ opConstant)
    (b2 : Nat) : constOperands [b1, b2] = [] := by
  rw [show ([b1, b2] : List Nat) = b1 :: [b2] from rfl, constOperands_cons hb, h]
  simp

theorem constOperands_constPair (i : Nat) : constOperands [opConstant, i] = [i] := by
  rw [show ([opConstant, i] : List Nat) = opConstant :: i :: [] from rfl,
    constOperands_cons_const]
  simp

theorem constOperands_triple {b : Nat} (h : operandCount b = 2) (x y : Nat) :
    constOperands [b, x, y] = [] := by
  rw [show ([b, x, y] : List Nat) = b :: [x, y] from rfl,
    constOperands_cons (ne_opConstant_of_count_two h), h]
  simp

theorem ginv_errorAt (t : Token) (m : String) {s : PState} (h : GInv s) :
    GInv (errorAt t m s) := by
  obtain ⟨h1, h2, h3⟩ := h
  refine ⟨?_, ?_, ?_⟩
  · rw [errorAt_panicMode, errorAt_hadError, h1]
    cases s.hadError <;> simp
  · rw [errorAt_hadError, errorAt_diags, h1]
    cases hs : s.hadError <;> simp_all
  · intro hf
    rw [errorAt_hadError, h1] at hf
    cases hs : s.hadError <;> simp_all

theorem mono_errorAt (t : Token) (m : String) {s : PState} (h : s.hadError = true) :
    (errorAt t m s).hadError = true := by
  rw [errorAt_hadError, h]; simp

theorem ginv_emitByte (b : Nat) {s : PState} (h : GInv s) : GInv (emitByte b s) := by
  obtain ⟨h1, h2, h3⟩ := h
  exact ⟨h1, h2, h3⟩

theorem ginv_advLoop (ts : List Token) {s : PState} (h : GInv s) : GInv (advLoop ts s) := by
  induction ts generalizing s with
  | nil => exact h
  | cons t ts ih =>
    obtain ⟨h1, h2, h3⟩ := h
    unfold advLoop
    cases t.kind <;>
      first
        | exact ih ⟨h1, h2, h3⟩
        | exact ih (ginv_errorAt _ _ ⟨h1, h2, h3⟩)
        | exact ⟨h1, h2, h3⟩

theorem mono_advLoop (ts : List Token) {s : PState} (h : s.hadError = true) :
    (advLoop ts s).hadError = true := by
  induction ts generalizing s with
  | nil => exact h
  | cons t ts ih =>
    unfold advLoop
    cases t.kind <;>
      first
        | exact ih h
        | exact ih (mono_errorAt _ _ h)
        | exact h

theorem ginv_advance {s : PState} (h : GInv s) : GInv (advance s) := by
  unfold advance
  apply ginv_advLoop
  obtain ⟨h1, h2, h3⟩ := h
  exact ⟨h1, h2, h3⟩

theorem mono_advance {s : PState} (h : s.hadError = true) : (advance s).hadError = true := by
  unfold advance
  exact mono_advLoop _ h

theorem ginv_matchesTk (k : TokenKind) {s : PState} (h : GInv s) :
    GInv (matchesTk k s).2 := by
  rw [matchesTk_snd]
  split
  · exact ginv_advance h
  · exact h

theorem mono_matchesTk (k : TokenKind) {s : PState} (h : s.hadError = true) :
    ((matchesTk k s).2).hadError = true := by
  rw [matchesTk_snd]
  split
  · exact mono_advance h
  · exact h

theorem ginv_consume (k : TokenKind) (m : String) {s : PState} (h : GInv s) :
    GInv (consume k m s) := by
  unfold consume
  split
  · exact ginv_advance h
  · exact ginv_errorAt _ _ h

theorem mono_consume (k : TokenKind) (m : String) {s : PState} (h : s.hadError = true) :
    (consume k m s).hadError = true := by
  unfold consume
  split
  · exact mono_advance h
  · exact mono_errorAt _ _ h

theorem ginv_makeConstant (v : Value) {s : PState} (h : GInv s) :
    GInv (makeConstant v s).2 := by
  obtain ⟨h1, h2, h3⟩ := h
  simp only [makeConstant, addConstant]
  split
  · next hgt =>
    unfold errorPrev errorAt
    split
    · next hp =>
      refine ⟨h1, h2, ?_⟩
      intro hf
      rw [hf] at h1
      rw [h1] at hp
      simp at hp
    · next hp =>
      simp only [Bool.not_eq_true] at hp
      rw [hp] at h1
      refine ⟨rfl, ?_, by simp⟩
      simp [← h1, h2]
  · next hle =>
    refine ⟨h1, h2, ?_⟩
    intro _
    simp only [List.length_append, List.length_singleton]
    omega

theorem mono_makeConstant (v : Value) {s : PState} (h : s.hadError = true) :
    ((makeConstant v s).2).hadError = true := by
  simp only [makeConstant, addConstant]
  split
  · exact mono_errorAt _ _ h
  · exact h

theorem ginv_emitConstant (v : Value) {s : PState} (h : GInv s) :
    GInv (emitConstant v s) := by
  unfold emitConstant emitTwoBytes
  exact ginv_emitByte _ (ginv_emitByte _ (ginv_makeConstant v h))

theorem mono_emitConstant (v : Value) {s : PState} (h : s.hadError = true) :
    (emitConstant v s).hadError = true := by
  unfold emitConstant emitTwoBytes
  simp only [emitByte_hadError]
  exact mono_makeConstant v h

theorem ginv_patchJump (off : Nat) {s : PState} (h : GInv s) : GInv (patchJump off s) := by
  obtain ⟨h1, h2, h3⟩ := h
  simp only [patchJump]
  split
  · next hgt =>
    have h' : GInv (errorPrev "Too much code to jump over." s) := ginv_errorAt _ _ ⟨h1, h2, h3⟩
    obtain ⟨g1, g2, g3⟩ := h'
    exact ⟨g1, g2, by simpa using g3⟩
  · exact ⟨h1, h2, by simpa using h3⟩

theorem mono_patchJump (off : Nat) {s : PState} (h : s.hadError = true) :
    (patchJump off s).hadError = true := by
  simp only [patchJump]
  split
  · exact mono_errorAt _ _ h
  · exact h

theorem ginv_emitLoop (ls : Nat) {s : PState} (h : GInv s) : GInv (emitLoop ls s) := by
  simp only [emitLoop]
  split
  · exact ginv_emitByte _ (ginv_emitByte _ (ginv_errorAt _ _ (ginv_emitByte _ h)))
  · exact ginv_emitByte _ (ginv_emitByte _ (ginv_emitByte _ h))

theorem mono_emitLoop (ls : Nat) {s : PState} (h : s.hadError = true) :
    (emitLoop ls s).hadError = true := by
  simp only [emitLoop]
  split
  · simpa [errorPrev] using mono_errorAt _ _ (s := emitByte opLoop s) h
  · simpa using h

theorem Post.rfl (s : PState) : Post s s :=
  ⟨⟨[], by simp, CodeSeq.nil, by simp [constOperands]⟩, ⟨[], by simp⟩, id, id⟩

theorem Post.trans {s1 s2 s3 : PState} (p : Post s1 s2) (q : Post s2 s3) : Post s1 s3 := by
  obtain ⟨⟨d1, hd1, hc1, hv1⟩, ⟨e1, he1⟩, g1, m1⟩ := p
  obtain ⟨⟨d2, hd2, hc2, hv2⟩, ⟨e2, he2⟩, g2, m2⟩ := q
  refine ⟨⟨d1 ++ d2, ?_, hc1.append hc2, ?_⟩, ⟨e1 ++ e2, ?_⟩,
    fun g => g2 (g1 g), fun h => m2 (m1 h)⟩
  · rw [hd2, hd1, List.append_assoc]
  · intro i hi
    rw [constOperands_append hc1] at hi
    rcases List.mem_append.mp hi with hin | hin
    · have hv := hv1 i hin
      have hle : s2.chunk.constants.length ≤ s3.chunk.constants.length := by
        rw [he2]; simp
      omega
    · exact hv2 i hin
  · rw [he2, he1, List.append_assoc]

theorem Post.frame {s s' : PState} (hc : s'.chunk = s.chunk)
    (hg : GInv s → GInv s') (hm : s.hadError = true → s'.hadError = true) : Post s s' :=
  ⟨⟨[], by simp [hc], CodeSeq.nil, by simp [constOperands]⟩, ⟨[], by simp [hc]⟩, hg, hm⟩

theorem post_advance (s : PState) : Post s (advance s) :=
  Post.frame (advance_chunk s) ginv_advance mono_advance

theorem post_matchesTk (k : TokenKind) (s : PState) : Post s (matchesTk k s).2 :=
  Post.frame (matchesTk_snd_chunk k s) (ginv_matchesTk k) (mono_matchesTk k)

theorem post_consume (k : TokenKind) (m : String) (s : PState) : Post s (consume k m s) :=
  Post.frame (consume_chunk k m s) (ginv_consume k m) (mono_consume k m)

theorem post_errorAt (t : Token) (m : String) (s : PState) : Post s (errorAt t m s) :=
  Post.frame (errorAt_chunk t m s) (ginv_errorAt t m) (mono_errorAt t m)

theorem post_emit0 {b : Nat} (h : operandCount b = 0) (s : PState) :
    Post s (emitByte b s) := by
  refine ⟨⟨[b], by simp, codeSeq_single h, ?_⟩, ⟨[], by simp⟩, ginv_emitByte b, by simp⟩
  simp [constOperands_single h]

theorem post_emitPair {b1 : Nat} (h : operandCount b1 = 1) (hb : b1 ≠ opConstant)
    (b2 : Nat) (s : PState) : Post s (emitByte b2 (emitByte b1 s)) := by
  refine ⟨⟨[b1, b2], by simp, codeSeq_pair h b2, ?_⟩, ⟨[], by simp⟩,
    fun g => ginv_emitByte _ (ginv_emitByte _ g), by simp⟩
  simp [constOperands_pair h hb]

theorem post_emitConstant (v : Value) (s : PState) : Post s (emitConstant v s) := by
  refine ⟨⟨[opConstant, s.chunk.constants.length % 256], ?_, codeSeq_pair opConstant_operands _, ?_⟩,
    ⟨[v], emitConstant_constants v s⟩, ginv_emitConstant v, mono_emitConstant v⟩
  · rw [emitConstant_code]
  · intro i hi
    rw [constOperands_constPair] at hi
    simp only [List.mem_singleton] at hi
    subst hi
    rw [emitConstant_constants]
    simp only [List.length_append, List.length_singleton]
    have := Nat.mod_le s.chunk.constants.length 256
    omega

theorem emitLoop_code (ls : Nat) (s : PState) :
    (emitLoop ls s).chunk.code = s.chunk.code ++
      [opLoop, (s.chunk.code.length + 1 - ls + 2) % 65536 / 256,
        (s.chunk.code.length + 1 - ls + 2) % 65536 % 256] := by
  simp only [emitLoop]
  split <;> simp [errorPrev]

theorem emitLoop_constants (ls : Nat) (s : PState) :
    (emitLoop ls s).chunk.constants = s.chunk.constants := by
  simp only [emitLoop]
  split
  · simp [errorPrev]
  · simp

theorem mono_errorPrev (m : String) {s : PState} (h : s.hadError = true) :
    (errorPrev m s).hadError = true :=
  mono_errorAt _ _ h

theorem post_emitLoop (ls : Nat) (s : PState) : Post s (emitLoop ls s) := by
  have h2 : operandCount opLoop = 2 := by decide
  refine ⟨⟨[opLoop, (s.chunk.code.length + 1 - ls + 2) % 65536 / 256,
      (s.chunk.code.length + 1 - ls + 2) % 65536 % 256],
    emitLoop_code ls s, codeSeq_triple h2 _ _, ?_⟩,
    ⟨[], by simp [emitLoop_constants]⟩, ginv_emitLoop ls, mono_emitLoop ls⟩
  simp [constOperands_triple h2]

theorem emitJump_snd_constants (i : Nat) (s : PState) :
    ((emitJump i s).2).chunk.constants = s.chunk.constants := by
  simp [emitJump]

theorem ginv_emitJump_snd (i : Nat) {s : PState} (h : GInv s) : GInv (emitJump i s).2 :=
  ginv_emitByte _ (ginv_emitByte _ (ginv_emitByte _ h))

theorem mono_emitJump_snd (i : Nat) {s : PState} (h : s.hadError = true) :
    ((emitJump i s).2).hadError = true := h

theorem patchJump_constants (off : Nat) (s : PState) :
    (patchJump off s).chunk.constants = s.chunk.constants := by
  simp only [patchJump]
  split <;> simp [errorPrev]

theorem patchJump_code (off : Nat) (s : PState) :
    (patchJump off s).chunk.code =
      (s.chunk.code.set off ((s.chunk.code.length - off - 2) % 65536 / 256)).set (off + 1)
        ((s.chunk.code.length - off - 2) % 65536 % 256) := by
  simp only [patchJump]
  split <;> simp [errorPrev]

theorem post_sizedConstant {one many : Nat} (h1 : operandCount one = 0)
    (h2 : operandCount many = 0) {s s' : PState}
    (h : sizedConstant one many s = .ok s') : Post s s' := by
  unfold sizedConstant at h
  simp only [] at h
  split at h
  · split at h
    · injection h with h
      subst h
      exact ((post_advance s).trans (post_matchesTk _ _)).trans
        ((post_emitConstant _ _).trans (post_emit0 h2 _))
    · exact absurd h (by simp)
  · injection h with h
    subst h
    exact ((post_advance s).trans (post_matchesTk _ _)).trans (post_emit0 h1 _)

theorem post_sizedCode {one many : Nat} (h1 : operandCount one = 0)
    (h2 : operandCount many = 1) (h3 : many ≠ opConstant) {s s' : PState}
    (h : sizedCode one many s = .ok s') : Post s s' := by
  unfold sizedCode at h
  simp only [] at h
  split at h
  · split at h
    · split at h
      · injection h with h
        subst h
        exact ((post_advance s).trans (post_matchesTk _ _)).trans (post_errorAt _ _ _)
      · injection h with h
        subst h
        exact ((post_advance s).trans (post_matchesTk _ _)).trans (post_emitPair h2 h3 _ _)
    · exact absurd h (by simp)
  · injection h with h
    subst h
    exact ((post_advance s).trans (post_matchesTk _ _)).trans (post_emit0 h1 _)

theorem post_multiInputFlag (b : Nat) (k : TokenKind) (s : PState) :
    Post s (emitByte b ((matchesTk k (emitByte opMultiInput s)).2)) := by
  have hmi : operandCount opMultiInput = 1 := by decide
  have hne : opMultiInput ≠ opConstant := by decide
  refine ⟨⟨[opMultiInput, b], by simp, codeSeq_pair hmi b, ?_⟩, ⟨[], by simp⟩,
    fun g => ginv_emitByte _ (ginv_matchesTk _ (ginv_emitByte _ g)), ?_⟩
  · simp [constOperands_pair hmi hne]
  · intro hh
    simp only [emitByte_hadError]
    exact mono_matchesTk _ (by simpa using hh)

theorem post_inputExpression (s : PState) : Post s (inputExpression s) := by
  unfold inputExpression
  by_cases hstar : (matchesTk TokenKind.Star (advance s)).1 = true
  · simp only [hstar, if_true]
    exact ((post_advance s).trans (post_matchesTk _ _)).trans (post_multiInputFlag _ _ _)
  · simp only [Bool.not_eq_true] at hstar
    simp only [hstar, Bool.false_eq_true, if_false]
    have hin : operandCount opInput = 0 := by decide
    exact (((post_advance s).trans (post_matchesTk _ _)).trans (post_emit0 hin _)).trans
      (post_multiInputFlag _ _ _)

theorem post_replaceCurrent {s s' : PState} (h : replaceCurrent s = .ok s') : Post s s' := by
  unfold replaceCurrent at h
  simp only [] at h
  split at h
  · split at h
    · injection h with h
      subst h
      exact ((post_advance s).trans (post_consume _ _ _)).trans (post_errorAt _ _ _)
    · injection h with h
      subst h
      have hw : operandCount opWriteCell = 1 := by decide
      have hwc : opWriteCell ≠ opConstant := by decide
      exact ((post_advance s).trans (post_consume _ _ _)).trans (post_emitPair hw hwc _ _)
  · exact absurd h (by simp)

theorem post_setPointerExpression {s s' : PState} (h : setPointerExpression s = .ok s') :
    Post s s' := by
  unfold setPointerExpression at h
  simp only [] at h
  split at h
  · injection h with h
    subst h
    have hsp : operandCount opSetPointer = 0 := by decide
    exact ((post_advance s).trans (post_consume _ _ _)).trans
      ((post_emitConstant _ _).trans (post_emit0 hsp _))
  · exact absurd h (by simp)

theorem post_defineTape {s s' : PState} (h : defineTape s = .ok s') : Post s s' := by
  unfold defineTape at h
  simp only [] at h
  split at h
  · injection h with h
    subst h
    have hdt : operandCount opDefineTape = 0 := by decide
    exact (((post_advance s).trans (post_consume _ _ _)).trans
      ((post_emitConstant _ _).trans (post_emit0 hdt _))).trans (post_consume _ _ _)
  · exact absurd h (by simp)

theorem post_stringExpr (s : PState) : Post s (stringExpr s) := by
  unfold stringExpr
  have hws : operandCount opWriteString = 0 := by decide
  have hpr : operandCount opPrintRange = 0 := by decide
  have hmr : operandCount opMoveRight = 0 := by decide
  have base : Post s ((matchesTk TokenKind.Dollar
      (advance (emitByte opWriteString (emitConstant
        (Value.String ((s.current.lexeme.drop 1).dropRight 1)) s)))).2) :=
    (((post_emitConstant _ _).trans (post_emit0 hws _)).trans (post_advance _)).trans
      (post_matchesTk _ _)
  by_cases hd : (matchesTk TokenKind.Dollar
      (advance (emitByte opWriteString (emitConstant
        (Value.String ((s.current.lexeme.drop 1).dropRight 1)) s)))).1 = true
  · simp only [hd, if_true]
    have mid := base.trans ((post_emitConstant
      (Value.Int ((((s.current.lexeme.drop 1).dropRight 1)).utf8ByteSize % 2 ^ 32)) _).trans
      (post_emit0 hpr _))
    by_cases hc : (matchesTk TokenKind.Caret (emitByte opPrintRange (emitConstant
        (Value.Int ((((s.current.lexeme.drop 1).dropRight 1)).utf8ByteSize % 2 ^ 32))
        ((matchesTk TokenKind.Dollar (advance (emitByte opWriteString (emitConstant
          (Value.String ((s.current.lexeme.drop 1).dropRight 1)) s)))).2)))).1 = true
    · simp only [hc, if_true]
      exact (mid.trans (post_matchesTk _ _)).trans
        ((post_emitConstant _ _).trans (post_emit0 hmr _))
    · simp only [Bool.not_eq_true] at hc
      simp only [hc, Bool.false_eq_true, if_false]
      exact mid.trans (post_matchesTk _ _)
  · simp only [Bool.not_eq_true] at hd
    simp only [hd, Bool.false_eq_true, if_false]
    by_cases hc : (matchesTk TokenKind.Caret ((matchesTk TokenKind.Dollar
        (advance (emitByte opWriteString (emitConstant
          (Value.String ((s.current.lexeme.drop 1).dropRight 1)) s)))).2)).1 = true
    · simp only [hc, if_true]
      exact (base.trans (post_matchesTk _ _)).trans
        ((post_emitConstant _ _).trans (post_emit0 hmr _))
    · simp only [Bool.not_eq_true] at hc
      simp only [hc, Bool.false_eq_true, if_false]
      exact base.trans (post_matchesTk _ _)

theorem loopExpressionF_post {body : PState → PRes PState}
    (hbody : ∀ u u', body u = .ok u' → Post u u')
    {s s' : PState} (h : loopExpressionF body s = .ok s') :
    Post s s' ∧ ∃ a b rest, s'.chunk.code = s.chunk.code ++ opJumpIfZero :: a :: b :: rest := by
  unfold loopExpressionF at h
  simp only [PRes.monad_bind] at h
  obtain ⟨s3, hb, hok⟩ := PRes.bind_eq_ok h
  injection hok with hok
  subst hok
  obtain ⟨⟨d, hd, hcs, hv⟩, ⟨e, he⟩, hg, hm⟩ := hbody _ _ hb
  rw [advance_chunk, emitJump_snd_code] at hd
  rw [advance_chunk, emitJump_snd_constants] at he
  have hjz2 : operandCount opJumpIfZero = 2 := by decide
  have hjzc : opJumpIfZero ≠ opConstant := by decide
  have hlp2 : operandCount opLoop = 2 := by decide
  -- code after emitLoop
  have h4 : (emitLoop s.chunk.code.length s3).chunk.code =
      s.chunk.code ++ (opJumpIfZero :: 255 :: 255 ::
        (d ++ [opLoop, (s3.chunk.code.length + 1 - s.chunk.code.length + 2) % 65536 / 256,
          (s3.chunk.code.length + 1 - s.chunk.code.length + 2) % 65536 % 256])) := by
    rw [emitLoop_code, hd]
    simp [List.append_assoc]
  -- final code after patching
  set X := (s3.chunk.code.length + 1 - s.chunk.code.length + 2) % 65536 / 256 with hX
  set Y := (s3.chunk.code.length + 1 - s.chunk.code.length + 2) % 65536 % 256 with hY
  set L4 := (emitLoop s.chunk.code.length s3).chunk.code with hL4
  set J := (L4.length - (emitJump opJumpIfZero s).1 - 2) % 65536 with hJ
  have hfst : (emitJump opJumpIfZero s).1 = s.chunk.code.length + 1 := emitJump_fst _ _
  have h5 : (patchJump (emitJump opJumpIfZero s).1 (emitLoop s.chunk.code.length s3)).chunk.code =
      s.chunk.code ++ (opJumpIfZero :: (J / 256) :: (J % 256) ::
        (d ++ [opLoop, X, Y])) := by
    rw [patchJump_code, ← hL4, ← hJ, hfst, h4]
    have e1 : s.chunk.code.length + 1 = s.chunk.code.length + 1 := rfl
    rw [set_append_right s.chunk.code _ 1, show s.chunk.code.length + 1 + 1 =
      s.chunk.code.length + 2 from rfl, set_append_right s.chunk.code _ 2]
    simp [List.set]
  refine ⟨⟨⟨opJumpIfZero :: (J / 256) :: (J % 256) :: (d ++ [opLoop, X, Y]), h5, ?_, ?_⟩,
      ⟨e, by rw [patchJump_constants, emitLoop_constants, he]⟩,
      fun g => ginv_patchJump _ (ginv_emitLoop _ (hg (ginv_advance (ginv_emitJump_snd _ g)))),
      fun hh => mono_patchJump _ (mono_emitLoop _ (hm (mono_advance (mono_emitJump_snd _ hh))))⟩,
    ⟨J / 256, J % 256, d ++ [opLoop, X, Y], h5⟩⟩
  · have : CodeSeq (d ++ [opLoop, X, Y]) := hcs.append (codeSeq_triple hlp2 X Y)
    have hc := CodeSeq.cons opJumpIfZero [J / 256, J % 256] (d ++ [opLoop, X, Y])
      (by simp [hjz2]) this
    simpa using hc
  · intro i hi
    rw [show (opJumpIfZero :: (J / 256) :: (J % 256) :: (d ++ [opLoop, X, Y])) =
      opJumpIfZero :: ((J / 256) :: (J % 256) :: (d ++ [opLoop, X, Y])) from rfl,
      constOperands_cons hjzc, hjz2] at hi
    simp only [List.drop_succ_cons, List.drop_zero] at hi
    rw [constOperands_append hcs, constOperands_triple hlp2] at hi
    simp only [List.append_nil] at hi
    have := hv i hi
    rw [patchJump_constants, emitLoop_constants]
    omega

theorem post_expressionF {body : PState → PRes PState}
    (hbody : ∀ u u', body u = .ok u' → Post u u')
    {s s' : PState} (h : expressionF body s = .ok s') : Post s s' := by
  unfold expressionF at h
  cases hk : s.current.kind <;> rw [hk] at h
  case Plus => exact post_sizedCode (by decide) (by decide) (by decide) h
  case Minus => exact post_sizedCode (by decide) (by decide) (by decide) h
  case LeftAngle => exact post_sizedConstant (by decide) (by decide) h
  case RightAngle => exact post_sizedConstant (by decide) (by decide) h
  case Dot => exact post_sizedConstant (by decide) (by decide) h
  case Comma =>
    injection h with h; subst h; exact post_inputExpression s
  case Hash => exact post_replaceCurrent h
  case At => exact post_setPointerExpression h
  case LeftBrace => exact post_defineTape h
  case LeftBracket => exact (loopExpressionF_post hbody h).1
  case String =>
    injection h with h; subst h; exact post_stringExpr s
  all_goals (injection h with h; subst h; exact Post.rfl s)

theorem post_compilerStep (fuel : Nat) :
    (∀ s s', expression fuel s = .ok s' → Post s s') ∧
    (∀ s s', loopBody fuel s = .ok s' → Post s s') := by
  induction fuel with
  | zero =>
    constructor <;> intro s s' h <;>
      simp [expression, loopBody, compilerStep] at h
  | succ n ih =>
    obtain ⟨ihe, ihb⟩ := ih
    constructor
    · intro s s' h
      rw [show expression (n + 1) s = expressionF (loopBody n) s from rfl] at h
      exact post_expressionF ihb h
    · intro s s' h
      rw [show loopBody (n + 1) s =
        (if (matchesTk TokenKind.RightBracket s).1 then
          PRes.ok (matchesTk TokenKind.RightBracket s).2
        else PRes.bind (expression n (matchesTk TokenKind.RightBracket s).2)
          (loopBody n)) from rfl] at h
      split at h
      · injection h with h
        subst h
        exact post_matchesTk _ _
      · obtain ⟨t, h1, h2⟩ := PRes.bind_eq_ok h
        exact (post_matchesTk _ _).trans ((ihe _ _ h1).trans (ihb _ _ h2))

theorem post_expression {fuel : Nat} {s s' : PState}
    (h : expression fuel s = .ok s') : Post s s' :=
  (post_compilerStep fuel).1 s s' h

theorem post_mainLoop (fuel : Nat) : ∀ {s s' : PState}, mainLoop fuel s = .ok s' → Post s s' := by
  induction fuel with
  | zero => intro s s' h; simp [mainLoop] at h
  | succ n ih =>
    intro s s' h
    rw [show mainLoop (n + 1) s =
      (if (matchesTk TokenKind.EOF s).1 then PRes.ok (endCompile (matchesTk TokenKind.EOF s).2)
       else PRes.bind (expression n (matchesTk TokenKind.EOF s).2) (mainLoop n)) from rfl] at h
    split at h
    · injection h with h
      subst h
      have hr : operandCount opReturn = 0 := by decide
      exact (post_matchesTk _ _).trans (post_emit0 hr _)
    · obtain ⟨t, h1, h2⟩ := PRes.bind_eq_ok h
      exact (post_matchesTk _ _).trans ((post_expression h1).trans (ih h2))

theorem ginv_initState (src : String) : GInv (initState src) := by
  refine ⟨rfl, rfl, ?_⟩
  intro _
  simp [initState]

theorem post_compileFuel {fuel : Nat} {src : String} {s' : PState}
    (h : compileFuel fuel src = .ok s') : Post (advance (initState src)) s' := by
  unfold compileFuel at h
  simp only [] at h
  split at h
  · have hdt : operandCount opDefineTape = 0 := by decide
    exact ((post_emitConstant _ _).trans (post_emit0 hdt _)).trans (post_mainLoop fuel h)
  · exact post_mainLoop fuel h

theorem ginv_compileFuel {fuel : Nat} {src : String} {s' : PState}
    (h : compileFuel fuel src = .ok s') : GInv s' :=
  (post_compileFuel h).ginv (ginv_advance (ginv_initState src))

@[simp] theorem check_emitByte (k : TokenKind) (b : Nat) (s : PState) :
    check k (emitByte b s) = check k s := rfl

theorem panicImp_errorAt (t : Token) (m : String) {s : PState}
    (h : s.panicMode = true → s.hadError = true) :
    (errorAt t m s).panicMode = true → (errorAt t m s).hadError = true := by
  intro _
  rw [errorAt_hadError]
  cases hp : s.panicMode
  · simp
  · simp [h hp]

theorem panicImp_advLoop (ts : List Token) : ∀ {s : PState},
    (s.panicMode = true → s.hadError = true) →
    ((advLoop ts s).panicMode = true → (advLoop ts s).hadError = true) := by
  induction ts with
  | nil => intro s h; exact h
  | cons t ts ih =>
    intro s h
    unfold advLoop
    cases t.kind <;>
      first
        | exact ih h
        | exact ih (panicImp_errorAt _ _ h)
        | exact h

theorem panicImp_advance {s : PState} (h : s.panicMode = true → s.hadError = true) :
    (advance s).panicMode = true → (advance s).hadError = true := by
  unfold advance
  exact panicImp_advLoop _ h

theorem advance_initState_chunk (src : String) :
    (advance (initState src)).chunk = ⟨[], [], []⟩ := by
  rw [advance_chunk]
  rfl

/-- Inside a loop body, end of input makes the body scan spin: the
closing bracket is never matched, and `expression()` at EOF does
nothing, so every fuel bound is exhausted. -/
theorem loopBody_eof (fuel : Nat) : ∀ {s : PState},
    s.current.kind = TokenKind.EOF → loopBody fuel s = .diverge := by
  induction fuel with
  | zero => intro s _; rfl
  | succ n ih =>
    intro s h
    rw [show loopBody (n + 1) s =
      (if (matchesTk TokenKind.RightBracket s).1 then
        PRes.ok (matchesTk TokenKind.RightBracket s).2
      else PRes.bind (expression n (matchesTk TokenKind.RightBracket s).2)
        (loopBody n)) from rfl]
    have hf : (matchesTk TokenKind.RightBracket s).1 = false := by
      rw [matchesTk_fst]
      simp [check, h]
    have hs : (matchesTk TokenKind.RightBracket s).2 = s := by
      rw [matchesTk_snd]
      simp [check, h]
    rw [hf, hs]
    simp only [Bool.false_eq_true, if_false]
    cases n with
    | zero => rfl
    | succ m =>
      have he : expression (m + 1) s = .ok s := by
        rw [show expression (m + 1) s = expressionF (loopBody m) s from rfl]
        unfold expressionF
        rw [h]
      rw [he]
      simp only [PRes.bind_ok]
      exact ih h

theorem compileFuel_preamble {fuel : Nat} {src : String} {s' : PState}
    (h : compileFuel fuel src = .ok s')
    (hk : firstTokenKind src ≠ TokenKind.LeftBracket) :
    s'.chunk.code.take 3 = [opConstant, 0, opDefineTape] ∧
    s'.chunk.constants.take 1 = [Value.Int 30000] := by
  unfold firstTokenKind at hk
  unfold compileFuel at h
  simp only [] at h
  rw [if_pos hk] at h
  obtain ⟨⟨d, hd, _, _⟩, ⟨e, he⟩, _, _⟩ := post_mainLoop fuel h
  have hcode2 : (emitByte opDefineTape (emitConstant (Value.Int 30000)
      (advance (initState src)))).chunk.code = [opConstant, 0, opDefineTape] := by
    rw [emitByte_code, emitConstant_code, advance_initState_chunk]
    rfl
  have hconst2 : (emitByte opDefineTape (emitConstant (Value.Int 30000)
      (advance (initState src)))).chunk.constants = [Value.Int 30000] := by
    rw [emitByte_constants, emitConstant_constants, advance_initState_chunk]
    rfl
  constructor
  · rw [hd, hcode2]
    exact List.take_left ([opConstant, 0, opDefineTape]) d
  · rw [he, hconst2]
    exact List.take_left ([Value.Int 30000]) e

theorem compileFuel_leftBracket_code {fuel : Nat} {src : String} {s' : PState}
    (h : compileFuel fuel src = .ok s')
    (hk : firstTokenKind src = TokenKind.LeftBracket) :
    s'.chunk.code.take 1 = [opJumpIfZero] := by
  unfold firstTokenKind at hk
  unfold compileFuel at h
  simp only [] at h
  rw [if_neg (by simp [hk])] at h
  cases fuel with
  | zero => simp [mainLoop] at h
  | succ n =>
    rw [show mainLoop (n + 1) (advance (initState src)) =
      (if (matchesTk TokenKind.EOF (advance (initState src))).1 then
        PRes.ok (endCompile (matchesTk TokenKind.EOF (advance (initState src))).2)
       else PRes.bind (expression n (matchesTk TokenKind.EOF (advance (initState src))).2)
        (mainLoop n)) from rfl] at h
    have hf : (matchesTk TokenKind.EOF (advance (initState src))).1 = false := by
      rw [matchesTk_fst]
      simp [check, hk]
    have hs : (matchesTk TokenKind.EOF (advance (initState src))).2 =
        advance (initState src) := by
      rw [matchesTk_snd]
      simp [check, hk]
    rw [hf, hs] at h
    simp only [Bool.false_eq_true, if_false] at h
    obtain ⟨t, h1, h2⟩ := PRes.bind_eq_ok h
    cases n with
    | zero => simp [expression, compilerStep] at h1
    | succ m =>
      rw [show expression (m + 1) (advance (initState src)) =
        expressionF (loopBody m) (advance (initState src)) from rfl] at h1
      unfold expressionF at h1
      rw [hk] at h1
      obtain ⟨_, a, b, rest, hcode⟩ := loopExpressionF_post
        (fun u u' hu => (post_compilerStep m).2 u u' hu) h1
      rw [advance_initState_chunk] at hcode
      simp only [List.nil_append] at hcode
      obtain ⟨⟨d, hd, _, _⟩, _, _, _⟩ := post_mainLoop (m + 1) h2
      rw [hd, hcode]
      rfl

end Lemmas

/-- Claim C1, counterexample: the preamble test in `Parser::compile` is
on the loop token, not on the tape-definition token.  The program whose
three characters are left-brace, 5, right-brace begins with the
tape-definition brace, yet its compiled code still starts with the
injected `Constant(30000)` + `DefineTape` preamble (followed by the
explicit tape definition); and the program `[]` does not begin with the
tape-definition brace, yet its code does not start with the preamble. -/
theorem preamble_counterexample :
    firstTokenKind "\x7b5\x7d" = TokenKind.LeftBrace ∧
    compiledCode 9 "\x7b5\x7d" = some [opConstant, 0, opDefineTape, opConstant, 1,
      opDefineTape, opReturn] ∧
    ((compiledCode 9 "\x7b5\x7d").getD []).take 3 = [opConstant, 0, opDefineTape] ∧
    firstTokenKind "[]" ≠ TokenKind.LeftBrace ∧
    ((compiledCode 9 "[]").getD []).take 3 ≠ [opConstant, 0, opDefineTape] := by
  refine ⟨rfl, rfl, rfl, by decide, by decide⟩

/-- Claim C1, amended: for every completed compile run, if the first
significant token is not `[` (the loop token) the chunk's first two
instructions are `Constant(30000)` (pool index 0) then `DefineTape`;
when the first token is `[` no preamble is injected and the code starts
with the loop's `JumpIfZero`. -/
theorem default_tape_preamble (fuel : Nat) (src : String) : preambleSpec fuel src := by
  unfold preambleSpec
  cases hc : compileFuel fuel src with
  | panicked => trivial
  | diverge => trivial
  | ok s =>
    show if firstTokenKind src = TokenKind.LeftBracket then _ else _
    by_cases hk : firstTokenKind src = TokenKind.LeftBracket
    · rw [if_pos hk]
      exact compileFuel_leftBracket_code hc hk
    · rw [if_neg hk]
      exact compileFuel_preamble hc hk

/-- Claim C2: contrary to the propagation policy, the compiler panics on
these inputs instead of reporting a compile error: an integer literal
just past the 32-bit range after a pointer-move operator reaches
`parse::<u32>().unwrap()` with a failed parse, and a literal-write
operator with no following integer reaches `parse::<usize>().unwrap()`
on the operator's own lexeme.  Both panic; no diagnostic-and-failure
result is produced. -/
theorem compile_error_no_panic_violated :
    compileFuel 9 "<4294967296" = PRes.panicked ∧
    parseU32 "4294967296" = none ∧
    compileFuel 9 "#" = PRes.panicked ∧
    parseProgram 9 "<4294967296" = PRes.panicked ∧
    parseProgram 9 "#" = PRes.panicked :=
  ⟨rfl, rfl, rfl, rfl, rfl⟩

/-- Claim C3: for the program `[+]` the compiled code is `JumpIfZero`
with big-endian operand bytes 0, 4 (positions 0 - 2), the increment
(position 3), `Loop` with operand bytes 0, 7 (positions 4 - 6), then
`Return` (position 7).  The forward offset 4 added to position 3 (just
past the `JumpIfZero` operands) lands at 7, the instruction following
`Loop`; the backward offset 7 subtracted from position 7 (just past the
`Loop` operands) lands at 0, the `JumpIfZero` instruction.  The jump was
emitted with the two reserved 0xFF placeholder bytes (second and third
conjunct: the placeholder at code offset 1) and backpatched in place. -/
theorem loop_offset_backpatching :
    compiledCode 9 "[+]" = some [opJumpIfZero, 0, 4, opIncrementSingular, opLoop, 0, 7,
      opReturn] ∧
    (emitJump opJumpIfZero (advance (initState "[+]"))).2.chunk.code =
      [opJumpIfZero, 255, 255] ∧
    (emitJump opJumpIfZero (advance (initState "[+]"))).1 = 1 ∧
    (let c := [opJumpIfZero, 0, 4, opIncrementSingular, opLoop, 0, 7, opReturn]
     256 * c.getD 1 0 + c.getD 2 0 = 4 ∧
     3 + (256 * c.getD 1 0 + c.getD 2 0) = 7 ∧
     c.getD 7 0 = opReturn ∧
     256 * c.getD 5 0 + c.getD 6 0 = 7 ∧
     7 - (256 * c.getD 5 0 + c.getD 6 0) = 0 ∧
     c.getD 0 0 = opJumpIfZero ∧ c.getD 4 0 = opLoop) :=
  ⟨rfl, rfl, rfl, rfl, rfl, rfl, rfl, rfl, rfl, rfl⟩

/-- Claim C9: a `[` with no matching `]` makes the compiler spin: once
the loop-body scan sees end of input, `matches(RightBracket)` stays
false and `expression()` consumes nothing, so the scan never finishes
(first conjunct: at EOF every fuel bound is exhausted), and compiling
the program `[` diverges at every fuel bound (second conjunct) - the
compile function is not total. -/
theorem compile_diverges_on_unmatched_bracket :
    (∀ (fuel : Nat) (s : PState), s.current.kind = TokenKind.EOF →
      loopBody fuel s = .diverge) ∧
    (∀ fuel : Nat, compileFuel fuel "[" = .diverge) := by
  refine ⟨fun fuel s h => loopBody_eof fuel h, ?_⟩
  intro fuel
  cases fuel with
  | zero => rfl
  | succ n =>
    rw [show compileFuel (n + 1) "[" =
      PRes.bind (expression n (advance (initState "["))) (mainLoop n) from rfl]
    cases n with
    | zero => rfl
    | succ m =>
      rw [show expression (m + 1) (advance (initState "[")) =
        PRes.bind (loopBody m (advance (emitJump opJumpIfZero (advance (initState "["))).2))
          (fun s3 => PRes.ok (patchJump (emitJump opJumpIfZero (advance (initState "["))).1
            (emitLoop (advance (initState "[")).chunk.code.length s3))) from rfl]
      rw [loopBody_eof m (show (advance
        ((emitJump opJumpIfZero (advance (initState "["))).2)).current.kind =
        TokenKind.EOF from rfl)]
      rfl

/-- Witness for claim C9's theorem at concrete inputs: a state already
at end of input, and the program `[` at fuel 7. -/
theorem compile_diverges_on_unmatched_bracket_witness :
    loopBody 3 (advance (initState "")) = .diverge ∧ compileFuel 7 "[" = .diverge :=
  ⟨compile_diverges_on_unmatched_bracket.1 3 (advance (initState "")) rfl,
   compile_diverges_on_unmatched_bracket.2 7⟩

/-- Claim C10: compilation is deterministic.  The embedded compiler is a
pure function of the source text (the Rust compiler keeps no state
across runs and nothing is randomized), so any two completed runs on
identical text that hand a chunk to the caller hand over chunks with the
same code bytes, the same constants in order, and the same line table. -/
theorem idempotent_recompilation (fuel : Nat) (src : String) (c1 c2 : Chunk)
    (h1 : parseProgram fuel src = .ok (some c1))
    (h2 : parseProgram fuel src = .ok (some c2)) :
    c1.code = c2.code ∧ c1.constants = c2.constants ∧ c1.lines = c2.lines := by
  rw [h1] at h2
  injection h2 with h2
  injection h2 with h2
  subst h2
  exact ⟨rfl, rfl, rfl⟩

/-- Witness for claim C10's theorem: two runs on the one-increment
program, both producing the same concrete chunk. -/
theorem idempotent_recompilation_witness :
    (⟨[opConstant, 0, opDefineTape, opIncrementSingular, opReturn],
      [Value.Int 30000], [0, 0, 0, 1, 1]⟩ : Chunk).code =
      (⟨[opConstant, 0, opDefineTape, opIncrementSingular, opReturn],
        [Value.Int 30000], [0, 0, 0, 1, 1]⟩ : Chunk).code ∧
    (⟨[opConstant, 0, opDefineTape, opIncrementSingular, opReturn],
      [Value.Int 30000], [0, 0, 0, 1, 1]⟩ : Chunk).constants =
      (⟨[opConstant, 0, opDefineTape, opIncrementSingular, opReturn],
        [Value.Int 30000], [0, 0, 0, 1, 1]⟩ : Chunk).constants ∧
    (⟨[opConstant, 0, opDefineTape, opIncrementSingular, opReturn],
      [Value.Int 30000], [0, 0, 0, 1, 1]⟩ : Chunk).lines =
      (⟨[opConstant, 0, opDefineTape, opIncrementSingular, opReturn],
        [Value.Int 30000], [0, 0, 0, 1, 1]⟩ : Chunk).lines :=
  idempotent_recompilation 9 "+"
    ⟨[opConstant, 0, opDefineTape, opIncrementSingular, opReturn],
      [Value.Int 30000], [0, 0, 0, 1, 1]⟩
    ⟨[opConstant, 0, opDefineTape, opIncrementSingular, opReturn],
      [Value.Int 30000], [0, 0, 0, 1, 1]⟩ rfl rfl

/-- Claim C4: for every `,` operator (a state whose current token is the
comma), `expression` dispatches to the input routine, which emits no
`Input` opcode when a `*` follows (consuming it) and emits `Input`
otherwise, then unconditionally emits `MultiInput` followed by one flag
byte that is 1 exactly when a `^` modifier follows and 0 otherwise (so
bit 0 records the `^` and all other bits are clear). -/
theorem input_operator_codegen (fuel : Nat) (s : PState)
    (h : s.current.kind = TokenKind.Comma) :
    expression (fuel + 1) s = .ok (inputExpression s) ∧
    (inputExpression s).chunk.code =
      s.chunk.code
        ++ (if check TokenKind.Star (advance s) then [] else [opInput])
        ++ [opMultiInput,
            if check TokenKind.Caret ((matchesTk TokenKind.Star (advance s)).2) then 1
            else 0] := by
  constructor
  · rw [show expression (fuel + 1) s = expressionF (loopBody fuel) s from rfl]
    unfold expressionF
    rw [h]
  · unfold inputExpression
    simp only [matchesTk_fst]
    by_cases hstar : check TokenKind.Star (advance s) = true
    · simp [hstar, matchesTk_snd_chunk, check_emitByte, matchesTk_fst]
    · simp only [Bool.not_eq_true] at hstar
      simp [hstar, matchesTk_snd_chunk, check_emitByte, matchesTk_fst]

/-- Witness for claim C4's theorem at the comma of the program whose
text is comma, star, caret. -/
theorem input_operator_codegen_witness :
    expression 1 (advance (initState ",*^")) =
      .ok (inputExpression (advance (initState ",*^"))) ∧
    (inputExpression (advance (initState ",*^"))).chunk.code =
      (advance (initState ",*^")).chunk.code
        ++ (if check TokenKind.Star (advance (advance (initState ",*^"))) then []
            else [opInput])
        ++ [opMultiInput,
            if check TokenKind.Caret ((matchesTk TokenKind.Star
              (advance (advance (initState ",*^")))).2) then 1
            else 0] :=
  input_operator_codegen 0 (advance (initState ",*^")) rfl

/-- Claim C5: a counted increment or decrement whose count parses above
255 is rejected with a compile error and emits nothing, while a count of
at most 255 emits the counted opcode followed by the count as one raw
inline byte (first conjunct, over any state whose next token is the
count).  Concretely, compiling the counted-increment program with count
256 fails with the expected diagnostic and its code carries no
`Increment`, count 255 succeeds emitting `Increment` then byte 255, and
the decrement forms behave the same around the same bound. -/
theorem counted_inline_bound :
    (∀ (one many : Nat) (s : PState) (n : Nat),
      (advance s).current.kind = TokenKind.Integer →
      parseUsize (advance s).current.lexeme = some n →
      (s.panicMode = true → s.hadError = true) →
      ∃ s', sizedCode one many s = .ok s' ∧
        s'.chunk.code = s.chunk.code ++ (if n ≤ 255 then [many, n] else []) ∧
        (255 < n → s'.hadError = true)) ∧
    compileSucceeds 9 "+256" = some false ∧
    compileDiags 9 "+256" = some [(1, "Expect integer between 0-255.")] ∧
    compiledCode 9 "+256" = some [opConstant, 0, opDefineTape, opReturn] ∧
    opIncrement ∉ [opConstant, 0, opDefineTape, opReturn] ∧
    compileSucceeds 9 "+255" = some true ∧
    compiledCode 9 "+255" = some [opConstant, 0, opDefineTape, opIncrement, 255, opReturn] ∧
    compileSucceeds 9 "-256" = some false ∧
    compiledCode 9 "-256" = some [opConstant, 0, opDefineTape, opReturn] ∧
    opDecrement ∉ [opConstant, 0, opDefineTape, opReturn] ∧
    compileSucceeds 9 "-255" = some true ∧
    compiledCode 9 "-255" = some [opConstant, 0, opDefineTape, opDecrement, 255, opReturn] := by
  refine ⟨?_, rfl, rfl, rfl, by decide, rfl, rfl, rfl, rfl, by decide, rfl, rfl⟩
  intro one many s n h1 h2 hpi
  unfold sizedCode
  simp only []
  have hm : (matchesTk TokenKind.Integer (advance s)).1 = true := by
    rw [matchesTk_fst]
    simp [check, h1]
  have hs2 : (matchesTk TokenKind.Integer (advance s)).2 = advance (advance s) := by
    rw [matchesTk_snd]
    simp [check, h1]
  rw [hm, hs2, advance_previous, h2]
  simp only [if_true]
  by_cases hn : n > 255
  · rw [if_pos hn]
    refine ⟨_, rfl, ?_, ?_⟩
    · rw [if_neg (by omega)]
      simp [errorAtCurrent]
    · intro _
      unfold errorAtCurrent
      rw [errorAt_hadError]
      have hpi2 : (advance (advance s)).panicMode = true →
          (advance (advance s)).hadError = true :=
        panicImp_advance (panicImp_advance hpi)
      cases hp2 : (advance (advance s)).panicMode
      · simp
      · simp [hpi2 hp2]
  · rw [if_neg hn]
    refine ⟨_, rfl, ?_, by omega⟩
    rw [if_pos (by omega)]
    simp

/-- Witness for claim C5's general conjunct: a counted increment with
count 300 on the program text plus-300. -/
theorem counted_inline_bound_witness :
    ∃ s', sizedCode opIncrementSingular opIncrement (advance (initState "+300")) = .ok s' ∧
      s'.chunk.code = (advance (initState "+300")).chunk.code ++
        (if 300 ≤ 255 then [opIncrement, 300] else []) ∧
      (255 < 300 → s'.hadError = true) :=
  counted_inline_bound.1 opIncrementSingular opIncrement (advance (initState "+300")) 300
    rfl rfl (by decide)

/-- Claim C6: a string literal's content is the lexeme with its quotes
sliced off, taken verbatim with no escape processing (first conjunct:
for every state, the pool gains exactly that string; last conjunct: a
backslash-n in the source stays two characters).  The literal compiles
to push-string + `WriteString`; a following dollar modifier appends
push-length + `PrintRange`, a following caret modifier appends
push-length + `MoveRight`, each optional, in that fixed order - shown
concretely on the two-character string hi with both modifiers, each
single modifier, and no modifier. -/
theorem string_literal_codegen :
    (∀ s : PState, ∃ rest, (stringExpr s).chunk.constants =
        s.chunk.constants ++ Value.String ((s.current.lexeme.drop 1).dropRight 1) :: rest) ∧
    compileSucceeds 9 "\"hi\"$^" = some true ∧
    compiledCode 9 "\"hi\"$^" = some [opConstant, 0, opDefineTape, opConstant, 1,
      opWriteString, opConstant, 2, opPrintRange, opConstant, 3, opMoveRight, opReturn] ∧
    compiledConstants 9 "\"hi\"$^" = some [Value.Int 30000, Value.String "hi",
      Value.Int 2, Value.Int 2] ∧
    compiledCode 9 "\"hi\"$" = some [opConstant, 0, opDefineTape, opConstant, 1,
      opWriteString, opConstant, 2, opPrintRange, opReturn] ∧
    compiledCode 9 "\"hi\"^" = some [opConstant, 0, opDefineTape, opConstant, 1,
      opWriteString, opConstant, 2, opMoveRight, opReturn] ∧
    compiledCode 9 "\"hi\"" = some [opConstant, 0, opDefineTape, opConstant, 1,
      opWriteString, opReturn] ∧
    compiledConstants 9 "\"a\\nb\"" = some [Value.Int 30000, Value.String "a\\nb"] := by
  refine ⟨?_, rfl, rfl, rfl, rfl, rfl, rfl, rfl⟩
  intro s
  unfold stringExpr
  simp only []
  by_cases hd : (matchesTk TokenKind.Dollar
      (advance (emitByte opWriteString (emitConstant
        (Value.String ((s.current.lexeme.drop 1).dropRight 1)) s)))).1 = true
  · simp only [hd, if_true]
    by_cases hc : (matchesTk TokenKind.Caret (emitByte opPrintRange (emitConstant
        (Value.Int ((((s.current.lexeme.drop 1).dropRight 1)).utf8ByteSize % 2 ^ 32))
        ((matchesTk TokenKind.Dollar (advance (emitByte opWriteString (emitConstant
          (Value.String ((s.current.lexeme.drop 1).dropRight 1)) s)))).2)))).1 = true
    · simp only [hc, if_true]
      exact ⟨[Value.Int ((((s.current.lexeme.drop 1).dropRight 1)).utf8ByteSize % 2 ^ 32),
        Value.Int ((((s.current.lexeme.drop 1).dropRight 1)).utf8ByteSize % 2 ^ 32)],
        by simp [emitConstant_constants, matchesTk_snd_chunk]⟩
    · simp only [Bool.not_eq_true] at hc
      simp only [hc, Bool.false_eq_true, if_false]
      exact ⟨[Value.Int ((((s.current.lexeme.drop 1).dropRight 1)).utf8ByteSize % 2 ^ 32)],
        by simp [emitConstant_constants, matchesTk_snd_chunk]⟩
  · simp only [Bool.not_eq_true] at hd
    simp only [hd, Bool.false_eq_true, if_false]
    by_cases hc : (matchesTk TokenKind.Caret ((matchesTk TokenKind.Dollar
        (advance (emitByte opWriteString (emitConstant
          (Value.String ((s.current.lexeme.drop 1).dropRight 1)) s)))).2)).1 = true
    · simp only [hc, if_true]
      exact ⟨[Value.Int ((((s.current.lexeme.drop 1).dropRight 1)).utf8ByteSize % 2 ^ 32)],
        by simp [emitConstant_constants, matchesTk_snd_chunk]⟩
    · simp only [Bool.not_eq_true] at hc
      simp only [hc, Bool.false_eq_true, if_false]
      exact ⟨[], by simp [emitConstant_constants, matchesTk_snd_chunk]⟩

/-- Claim C7: the panic-mode latch set by the first reported error is
never cleared within a run, so a completed compile run prints at most
one diagnostic; a diagnostic was printed exactly when `had_error` is
set, and in that case the caller receives no chunk (compile returns
failure) even though later errors print nothing. -/
theorem panic_mode_single_diagnostic (fuel : Nat) (src : String) :
    panicLatchSpec fuel src := by
  unfold panicLatchSpec
  cases hc : compileFuel fuel src with
  | panicked => trivial
  | diverge => trivial
  | ok s =>
    obtain ⟨h1, h2, h3⟩ := ginv_compileFuel hc
    refine ⟨?_, ?_, ?_⟩
    · rw [h2]
      split <;> omega
    · constructor
      · intro he
        rw [he] at h2
        simpa using h2
      · intro hdg
        cases hhe : s.hadError
        · rw [hhe] at h2
          simp at h2
          simp [h2] at hdg
        · rfl
    · intro hdg
      have hhe : s.hadError = true := by
        cases hhe : s.hadError
        · rw [hhe] at h2
          simp at h2
          simp [h2] at hdg
        · rfl
      unfold parseProgram
      rw [hc]
      simp [hhe]

/-- Claim C8: for every completed compile run, an error-free run's
constant pool has at most 256 entries, and every `Constant` operand byte
in the built code is a valid pool index (first conjunct); attempting to
add a constant at an index above 255 sets `had_error`, failing the
compilation, and when the run was not already in panic mode it prints
the too-many-constants diagnostic (second conjunct). -/
theorem constant_pool_discipline :
    (∀ (fuel : Nat) (src : String), poolDiscipline fuel src) ∧
    (∀ (v : Value) (s : PState), 255 < s.chunk.constants.length →
      (s.panicMode = true → s.hadError = true) →
      ((makeConstant v s).2.hadError = true ∧
        (s.hadError = false → (makeConstant v s).2.diags =
          s.diags ++ [(s.previous.line, "Too many constants in one chunk.")]))) := by
  constructor
  · intro fuel src
    unfold poolDiscipline
    cases hc : compileFuel fuel src with
    | panicked => trivial
    | diverge => trivial
    | ok s =>
      obtain ⟨g1, g2, g3⟩ := ginv_compileFuel hc
      refine ⟨g3, ?_⟩
      obtain ⟨⟨d, hd, hcs, hv⟩, _, _, _⟩ := post_compileFuel hc
      rw [advance_initState_chunk] at hd
      simp only [List.nil_append] at hd
      rw [hd]
      exact hv
  · intro v s hlen hpi
    constructor
    · simp only [makeConstant, addConstant]
      rw [if_pos hlen]
      unfold errorPrev
      rw [errorAt_hadError]
      cases hp : s.panicMode
      · simp [hp]
      · simp [hp, hpi hp]
    · intro hhe
      simp only [makeConstant, addConstant]
      rw [if_pos hlen]
      unfold errorPrev
      rw [errorAt_diags]
      have hp : s.panicMode = false := by
        cases hp : s.panicMode
        · rfl
        · rw [hpi hp] at hhe
          exact absurd hhe (by simp)
      simp [hp]

/-- Witness for claim C8's second conjunct: adding one more constant to
a state whose pool already has 257 entries. -/
theorem constant_pool_discipline_witness :
    (makeConstant (Value.Int 0) bigPoolState).2.hadError = true ∧
    (bigPoolState.hadError = false → (makeConstant (Value.Int 0) bigPoolState).2.diags =
      bigPoolState.diags ++ [(bigPoolState.previous.line,
        "Too many constants in one chunk.")]) :=
  constant_pool_discipline.2 (Value.Int 0) bigPoolState (by decide) (by decide)

end Paroxy
